import Mathlib

/-!
Verification of the rCore teaching kernel and its easy-fs filesystem library.

Each definition is a shallow embedding of the corresponding Rust item, keeping
the source's names and control flow.  The block device and cached-block layer
are abstracted as pure functions from block ids to block contents; machine
integers are modelled as `Nat`/`Int` (the sources never rely on wraparound in
the embedded code paths).
-/

namespace RCore

/-! ## Constants (easy-fs/src/lib.rs, easy-fs/src/layout.rs, easy-fs/src/bitmap.rs) -/

/-- `BLOCK_SZ` : block size in bytes. -/
def BLOCK_SZ : Nat := 512

/-- `INODE_DIRECT_COUNT` : number of direct block slots in a `DiskInode`. -/
def INODE_DIRECT_COUNT : Nat := 28

/-- `NAME_LENGTH_LIMIT` : maximum directory-entry name length (exclusive of the
trailing NUL slot). -/
def NAME_LENGTH_LIMIT : Nat := 27

/-- `INODE_INDIRECT1_COUNT = BLOCK_SZ / 4` : `u32` entries per indirect block. -/
def INODE_INDIRECT1_COUNT : Nat := BLOCK_SZ / 4

/-- `DIRECT_BOUND` : upper bound of the direct index range. -/
def DIRECT_BOUND : Nat := INODE_DIRECT_COUNT

/-- `INDIRECT1_BOUND = DIRECT_BOUND + INODE_INDIRECT1_COUNT`. -/
def INDIRECT1_BOUND : Nat := DIRECT_BOUND + INODE_INDIRECT1_COUNT

/-- `BLOCK_BITS = BLOCK_SZ * 8` : bits per bitmap block. -/
def BLOCK_BITS : Nat := BLOCK_SZ * 8

/-- `u64::MAX`, the all-ones 64-bit word. -/
def U64_MAX : Nat := 2 ^ 64 - 1

/-! ## DiskInode indexing (easy-fs/src/layout.rs, `DiskInode::get_block_id`)

The cached-block layer is abstracted as `disk : Nat → Nat → Nat`, mapping a
device block id and a `u32`-entry index inside that block to the entry's value
(`get_block_cache(..).read(0, |b: &IndirectBlock| b[i])`). -/

/-- The fields of `DiskInode` used by block-index translation.  `direct` is the
28-entry direct table, read at indices `< INODE_DIRECT_COUNT` only. -/
structure DiskInode where
  size : Nat
  direct : Nat → Nat
  indirect1 : Nat
  indirect2 : Nat

/-- `DiskInode::get_block_id(inner_id, block_device)`, the logical-to-device
block translation: direct table, then the `indirect1` block, then two levels
through the `indirect2` block. -/
def DiskInode.get_block_id (inode : DiskInode) (inner_id : Nat)
    (disk : Nat → Nat → Nat) : Nat :=
  if inner_id < INODE_DIRECT_COUNT then
    inode.direct inner_id
  else if inner_id < INDIRECT1_BOUND then
    disk inode.indirect1 (inner_id - INODE_DIRECT_COUNT)
  else
    let last := inner_id - INDIRECT1_BOUND
    let indirect1 := disk inode.indirect2 (last / INODE_INDIRECT1_COUNT)
    disk indirect1 (last % INODE_INDIRECT1_COUNT)

/-! ## DiskInode::read_at (easy-fs/src/layout.rs)

`read_at` copies byte ranges block by block.  The embedding records, for each
loop iteration, the file-offset positions copied (`start .. end_current_block`)
and the accumulated `read_size`; the byte values themselves come from the
blocks addressed through `get_block_id` and are orthogonal to the counting
behaviour under scrutiny. -/

/-- The `loop { .. }` body of `read_at`: starting from `start` (with
`start < endPos` on entry), each iteration copies up to the end of the current
512-byte block, clamped to `endPos`, then advances. -/
def read_at_loop (start endPos : Nat) : List Nat :=
  if h : min ((start / BLOCK_SZ + 1) * BLOCK_SZ) endPos = endPos then
    List.range' start (endPos - start)
  else
    List.range' start (min ((start / BLOCK_SZ + 1) * BLOCK_SZ) endPos - start) ++
      read_at_loop (min ((start / BLOCK_SZ + 1) * BLOCK_SZ) endPos) endPos
termination_by endPos - start
decreasing_by
  simp only [BLOCK_SZ] at h ⊢
  omega

/-- `DiskInode::read_at(offset, buf)` with `buf.len() = bufLen` on an inode of
the given `size`: returns the `read_size` result together with the list of
file positions copied into the buffer. -/
def DiskInode.read_at (offset bufLen size : Nat) : Nat × List Nat :=
  if offset ≥ min (offset + bufLen) size then (0, [])
  else ((read_at_loop offset (min (offset + bufLen) size)).length,
        read_at_loop offset (min (offset + bufLen) size))

/-! ## DirEntry (easy-fs/src/layout.rs)

Names are byte lists.  `DirEntry::new` copies `name.len()` bytes into a
28-byte zero-initialised array; a name longer than 28 bytes makes the slice
`bytes[..name.len()]` panic, modelled as `none`. -/

/-- `DirEntry`: a 28-byte name field and an inode id. -/
structure DirEntry where
  name : List Nat
  inode_id : Nat
deriving DecidableEq

/-- `DirEntry::new(name, inode_id)`.  The name bytes are copied in full — there
is no truncation — and the remainder of the 28-byte field stays zero. -/
def DirEntry.new (name : List Nat) (inode_id : Nat) : Option DirEntry :=
  if name.length ≤ NAME_LENGTH_LIMIT + 1 then
    some ⟨name ++ List.replicate (NAME_LENGTH_LIMIT + 1 - name.length) 0, inode_id⟩
  else
    none

/-! ## DiskInode layout and inode placement (easy-fs/src/layout.rs, efs.rs)

`DiskInode` is `#[repr(C)] { size: u32, direct: [u32; 28], indirect1: u32,
indirect2: u32, type_: DiskInodeType, nlink: u8 }`.  `DiskInodeType` is a
fieldless two-variant enum, hence one byte with alignment one.  The C
representation places each field at the running offset aligned up to the
field's alignment and pads the struct to a multiple of its largest field
alignment. -/

/-- Round `n` up to the next multiple of `a`. -/
def alignUp (n a : Nat) : Nat := (n + a - 1) / a * a

/-- Size of a `repr(C)` struct from its fields' `(size, alignment)` pairs. -/
def reprCSize (fields : List (Nat × Nat)) : Nat :=
  let maxAlign := fields.foldl (fun m f => max m f.2) 1
  let endOff := fields.foldl (fun off f => alignUp off f.2 + f.1) 0
  alignUp endOff maxAlign

/-- `(size, alignment)` of the fields of `DiskInode`, in declaration order:
`size: u32`, `direct: [u32; 28]`, `indirect1: u32`, `indirect2: u32`,
`type_: DiskInodeType` (fieldless two-variant enum), `nlink: u8`. -/
def diskInodeFields : List (Nat × Nat) :=
  [(4, 4), (28 * 4, 4), (4, 4), (4, 4), (1, 1), (1, 1)]

/-- `core::mem::size_of::<DiskInode>()`. -/
def sizeOfDiskInode : Nat := reprCSize diskInodeFields

/-- `EasyFileSystem::get_disk_inode_pos(inode_id)`: the device block and byte
offset of inode `inode_id`, given the inode area's start block. -/
def get_disk_inode_pos (inode_area_start_block inode_id : Nat) : Nat × Nat :=
  let inode_size := sizeOfDiskInode
  let inodes_per_block := BLOCK_SZ / inode_size
  (inode_area_start_block + inode_id / inodes_per_block,
   inode_id % inodes_per_block * inode_size)

/-! ## Bitmap allocation (easy-fs/src/bitmap.rs)

A bitmap's on-device contents are the list of its blocks, each block the list
of its 64 `u64` words. -/

/-- `u64::trailing_ones`, with 64 fuel steps (enough for any value below
`2 ^ 64`, which needs at most 64 halvings). -/
def trailing_ones_fuel : Nat → Nat → Nat
  | 0, _ => 0
  | fuel + 1, w => if w % 2 = 1 then trailing_ones_fuel fuel (w / 2) + 1 else 0

/-- `u64::trailing_ones(w)`: the number of consecutive one bits starting at the
least significant bit. -/
def trailing_ones (w : Nat) : Nat := trailing_ones_fuel 64 w

/-- The closure body of `Bitmap::alloc` for one bitmap block: find the first
word that is not all ones, set its lowest clear bit, and report
`(bits64_pos, inner_pos, updated block)`. -/
def allocInBlock : List Nat → Option (Nat × Nat × List Nat)
  | [] => none
  | w :: rest =>
    if w ≠ U64_MAX then
      some (0, trailing_ones w, (w ||| 2 ^ trailing_ones w) :: rest)
    else
      (allocInBlock rest).map fun r => (r.1 + 1, r.2.1, w :: r.2.2)

/-- `Bitmap::alloc`: scan the bitmap's blocks in order; the first block that
still has a free bit yields `block_id * BLOCK_BITS + bits64_pos * 64 +
inner_pos` and the updated bitmap contents; `none` once every block is
exhausted. -/
def Bitmap.alloc : List (List Nat) → Option (Nat × List (List Nat))
  | [] => none
  | b :: rest =>
    match allocInBlock b with
    | some r => some (r.1 * 64 + r.2.1, (r.2.2 : List Nat) :: rest)
    | none =>
      (Bitmap.alloc rest).map fun r => (r.1 + BLOCK_BITS, b :: r.2)

/-! ## Task scheduler (os/src/task/manager.rs, os/src/task/mod.rs)

`TaskManager` keeps a `VecDeque<Arc<TaskControlBlock>>`; the control block's
scheduling-relevant fields are its status and the `proc_prio` / `proc_stride`
counters (os/src/task/task.rs, initialised to 16 and 0). -/

/-- Execution status of a task (os/src/task/task.rs). -/
inductive TaskStatus where
  | UnInit
  | Ready
  | Running
  | Zombie
deriving DecidableEq

/-- The scheduling-relevant fields of `TaskControlBlock` /
`TaskControlBlockInner`. -/
structure TaskControlBlock where
  pid : Nat
  proc_prio : Nat
  proc_stride : Nat
  task_status : TaskStatus
deriving DecidableEq

/-- `TaskManager::add`: `self.ready_queue.push_back(task)`. -/
def TaskManager.add (q : List TaskControlBlock) (task : TaskControlBlock) :
    List TaskControlBlock :=
  q ++ [task]

/-- `TaskManager::fetch`: `self.ready_queue.pop_front()`. -/
def TaskManager.fetch (q : List TaskControlBlock) :
    Option (TaskControlBlock × List TaskControlBlock) :=
  match q with
  | [] => none
  | t :: rest => some (t, rest)

/-- The per-core state touched by `suspend_current_and_run_next`: the current
task slot and the ready queue. -/
structure ProcessorState where
  current : Option TaskControlBlock
  ready_queue : List TaskControlBlock
deriving DecidableEq

/-- `suspend_current_and_run_next` (os/src/task/mod.rs): take the current
task, set its status to Ready, and push it to the back of the ready queue
(`none` models the `take_current_task().unwrap()` panic with no current
task).  No field other than the status is written. -/
def suspend_current_and_run_next (p : ProcessorState) : Option ProcessorState :=
  match p.current with
  | none => none
  | some task =>
    some { current := none,
           ready_queue :=
             TaskManager.add p.ready_queue { task with task_status := TaskStatus.Ready } }

/-- Modelled from the spec: `BIG_STRIDE = 2 ^ 16`, the stride-scheduling
quantum divisor the specification prescribes.  The source defines no such
constant and never updates `proc_stride`. -/
def BIG_STRIDE_spec : Nat := 2 ^ 16

/-! ## Blocking mutex (os/src/sync/mutex.rs)

Threads in wait queues are identified by their tid. -/

/-- `MutexBlockingInner`: the locked flag and the FIFO wait queue. -/
structure MutexBlockingInner where
  locked : Bool
  wait_queue : List Nat
deriving DecidableEq

/-- `MutexBlocking::lock` called by thread `tid`: if locked, append the caller
to the wait queue and block (the Bool is `true` when the caller blocked);
otherwise set the flag. -/
def MutexBlocking.lock (tid : Nat) (m : MutexBlockingInner) :
    MutexBlockingInner × Bool :=
  if m.locked then
    ({ m with wait_queue := m.wait_queue ++ [tid] }, true)
  else
    ({ m with locked := true }, false)

/-- `MutexBlocking::unlock`: asserts the flag (`none` models the panic on an
unlocked mutex); with a waiter, pop and wake it, leaving `locked` untouched
(it stays `true`); with an empty queue, clear the flag.  The `Option Nat` is
the thread passed to `wakeup_task`. -/
def MutexBlocking.unlock (m : MutexBlockingInner) :
    Option (MutexBlockingInner × Option Nat) :=
  if m.locked then
    match m.wait_queue with
    | t :: rest => some ({ locked := true, wait_queue := rest }, some t)
    | [] => some ({ locked := false, wait_queue := [] }, none)
  else
    none

/-! ## Semaphores and per-thread resource vectors
(os/src/sync/semaphore.rs, os/src/syscall/sync.rs)

The thread-aware `TaskControlBlockInner` itself ships outside the sources at
hand; the `res` (tid), `allocation` and `need` fields below are exactly the
ones the semaphore and syscall code reads and writes. -/

/-- `Semaphore`: its id, signed count, and FIFO wait queue of tids. -/
structure Sem where
  sem_id : Nat
  count : Int
  wait_queue : List Nat
deriving DecidableEq

/-- The per-thread state the synchronisation code uses: the optional tid
(`res.as_ref().map(|r| r.tid)`) and the `allocation` / `need` vectors of
`(SemId, isize)` pairs. -/
structure ThreadTCB where
  res : Option Nat
  allocation : List (Nat × Int)
  need : List (Nat × Int)
deriving DecidableEq

/-- The fields of `ProcessControlBlockInner` used by the semaphore syscalls:
the deadlock-detection flag, the semaphore table and the thread table. -/
structure ProcState where
  is_dl_det_enable : Bool
  semaphore_list : List (Option Sem)
  tasks : List (Option ThreadTCB)
deriving DecidableEq

/-- `find` the first entry with the given id and add 1 to it, or push
`(id, 1)`: the update pattern shared by `Semaphore::down` and `::up`. -/
def bumpFirst : List (Nat × Int) → Nat → List (Nat × Int)
  | [], k => [(k, 1)]
  | p :: rest, k =>
    if p.1 = k then (p.1, p.2 + 1) :: rest else p :: bumpFirst rest k

/-- `find` the first entry with the given id, subtract 1, and remove it when
it drops to `≤ 0`; no entry means no change (`Semaphore::up`'s caller-side
`if let`; on the woken thread's `need` the source would panic instead, a case
unreachable from the states built here). -/
def decFirst : List (Nat × Int) → Nat → List (Nat × Int)
  | [], _ => []
  | p :: rest, k =>
    if p.1 = k then (if p.2 - 1 ≤ 0 then rest else (p.1, p.2 - 1) :: rest)
    else p :: decFirst rest k

/-- Apply `f` to the thread whose `res` carries tid `tid`. -/
def updateTask (tasks : List (Option ThreadTCB)) (tid : Nat)
    (f : ThreadTCB → ThreadTCB) : List (Option ThreadTCB) :=
  tasks.map fun ot => ot.map fun t => if t.res = some tid then f t else t

/-- Replace semaphore slot `i`. -/
def setSem (l : List (Option Sem)) (i : Nat) (s : Sem) : List (Option Sem) :=
  l.set i (some s)

/-- `process_inner.semaphore_list[i].as_ref()`: the semaphore in slot `i`. -/
def getSem (st : ProcState) (i : Nat) : Option Sem :=
  (st.semaphore_list.get? i).bind id

/-- `Semaphore::down` invoked by thread `tid` on the semaphore in slot
`semIdx` (`none` models the unwrap panic on a missing slot): decrement the
count; when it goes negative, record `(sem_id, 1)` in the caller's `need`,
append the caller to the wait queue and block; otherwise record the
acquisition in the caller's `allocation`. -/
def Semaphore.down (st : ProcState) (semIdx tid : Nat) : Option ProcState :=
  match getSem st semIdx with
  | none => none
  | some sem =>
    if sem.count - 1 < 0 then
      some { st with
        tasks := updateTask st.tasks tid fun t =>
          { t with need := bumpFirst t.need sem.sem_id },
        semaphore_list := setSem st.semaphore_list semIdx
          { sem with count := sem.count - 1, wait_queue := sem.wait_queue ++ [tid] } }
    else
      some { st with
        tasks := updateTask st.tasks tid fun t =>
          { t with allocation := bumpFirst t.allocation sem.sem_id },
        semaphore_list := setSem st.semaphore_list semIdx
          { sem with count := sem.count - 1 } }

/-- `Semaphore::up` invoked by thread `tid` on slot `semIdx`: increment the
count and release one unit from the caller's `allocation`; when the new count
is still `≤ 0`, pop the queue head, move one unit from its `need` to its
`allocation`, and wake it (an empty queue leaves nothing to wake, matching
the source's `if let`). -/
def Semaphore.up (st : ProcState) (semIdx tid : Nat) : Option ProcState :=
  match getSem st semIdx with
  | none => none
  | some sem =>
    if sem.count + 1 ≤ 0 then
      match sem.wait_queue with
      | [] =>
        some { st with
          tasks := updateTask st.tasks tid fun t =>
            { t with allocation := decFirst t.allocation sem.sem_id },
          semaphore_list := setSem st.semaphore_list semIdx
            { sem with count := sem.count + 1 } }
      | wtid :: rest =>
        some { st with
          tasks := updateTask
            (updateTask st.tasks tid fun t =>
              { t with allocation := decFirst t.allocation sem.sem_id })
            wtid fun t =>
              { t with need := decFirst t.need sem.sem_id,
                       allocation := bumpFirst t.allocation sem.sem_id },
          semaphore_list := setSem st.semaphore_list semIdx
            { sem with count := sem.count + 1, wait_queue := rest } }
    else
      some { st with
        tasks := updateTask st.tasks tid fun t =>
          { t with allocation := decFirst t.allocation sem.sem_id },
        semaphore_list := setSem st.semaphore_list semIdx
          { sem with count := sem.count + 1 } }

/-- A fresh process state holding one semaphore created with
`Semaphore::new(0, n)` and an arbitrary thread table. -/
def freshSemState (n : Nat) (tasks : List (Option ThreadTCB)) : ProcState :=
  { is_dl_det_enable := false,
    semaphore_list := [some { sem_id := 0, count := (n : Int), wait_queue := [] }],
    tasks := tasks }

/-- Run a sequence of semaphore operations on slot `semIdx`; an entry
`(true, tid)` is `Semaphore::down`, `(false, tid)` is `Semaphore::up`. -/
def applySemOps : List (Bool × Nat) → ProcState → Nat → Option ProcState
  | [], st, _ => some st
  | op :: rest, st, semIdx =>
    match (if op.1 then Semaphore.down st semIdx op.2 else Semaphore.up st semIdx op.2) with
    | none => none
    | some st1 => applySemOps rest st1 semIdx

/-! ## Banker's-algorithm deadlock detection (os/src/syscall/sync.rs,
`sys_semaphore_down`) -/

/-- The `work` vector: `(sem_id, max(count, 0))` for every live semaphore. -/
def workOf (st : ProcState) : List (Nat × Int) :=
  st.semaphore_list.filterMap fun os => os.map fun s => (s.sem_id, max s.count 0)

/-- The per-thread snapshot the detector builds: for every live thread with a
tid, its tid, `allocation` copy, and `need` copy — with `(sem_id, 1)` appended
for the calling thread's pending request. -/
def taskTriples (st : ProcState) (tid_now sem_id : Nat) :
    List (Nat × List (Nat × Int) × List (Nat × Int)) :=
  st.tasks.filterMap fun ot => ot.bind fun t => t.res.map fun tid =>
    (tid, t.allocation, if tid = tid_now then t.need ++ [(sem_id, 1)] else t.need)

/-- The `allocations` list built by the detector. -/
def allocationsOf (st : ProcState) (tid_now sem_id : Nat) :
    List (Nat × List (Nat × Int)) :=
  (taskTriples st tid_now sem_id).map fun x => (x.1, x.2.1)

/-- The `needs` list built by the detector. -/
def needsOf (st : ProcState) (tid_now sem_id : Nat) :
    List (Nat × List (Nat × Int)) :=
  (taskTriples st tid_now sem_id).map fun x => (x.1, x.2.2)

/-- The initial `finish` list: every snapshotted thread unmarked. -/
def finishInit (st : ProcState) (tid_now sem_id : Nat) : List (Nat × Bool) :=
  (taskTriples st tid_now sem_id).map fun x => (x.1, false)

/-- The `is_enough` scan: a thread is satisfiable when no `work` entry with a
matching id falls below the needed count. -/
def isEnough (tneeds work : List (Nat × Int)) : Bool :=
  tneeds.all fun nc => work.all fun wi =>
    if wi.1 = nc.1 then decide (nc.2 ≤ wi.2) else true

/-- Add `c` to the first `work` entry with id `k` (the source unwraps the
`find`; a missing id — unreachable here — leaves `work` unchanged). -/
def addToFirst : List (Nat × Int) → Nat → Int → List (Nat × Int)
  | [], _, _ => []
  | wi :: rest, k, c =>
    if wi.1 = k then (wi.1, wi.2 + c) :: rest else wi :: addToFirst rest k c

/-- Return a finished thread's whole allocation to `work`. -/
def returnAlloc (oalloc : Option (List (Nat × Int))) (work : List (Nat × Int)) :
    List (Nat × Int) :=
  match oalloc with
  | none => work
  | some l => l.foldl (fun w p => addToFirst w p.1 p.2) work

/-- One pass of the detector's `for (tid, finished) in &mut finish` loop:
mark each still-unfinished satisfiable thread in order, returning its
allocation to `work` immediately; the Bool reports whether any thread was
marked (`is_processing`). -/
def bankerPass (needs allocations : List (Nat × List (Nat × Int))) :
    List (Nat × Bool) → List (Nat × Int) →
    List (Nat × Bool) × List (Nat × Int) × Bool
  | [], work => ([], work, false)
  | (tid, fin) :: rest, work =>
    if fin then
      ((tid, fin) :: (bankerPass needs allocations rest work).1,
        (bankerPass needs allocations rest work).2)
    else if isEnough (((needs.find? fun q => q.1 == tid).map fun q => q.2).getD []) work then
      ((tid, true) ::
        (bankerPass needs allocations rest
          (returnAlloc ((allocations.find? fun q => q.1 == tid).map fun q => q.2) work)).1,
        (bankerPass needs allocations rest
          (returnAlloc ((allocations.find? fun q => q.1 == tid).map fun q => q.2) work)).2.1,
        true)
    else
      ((tid, false) :: (bankerPass needs allocations rest work).1,
        (bankerPass needs allocations rest work).2)

/-- Number of unmarked entries in `finish`. -/
def unfinishedCount (finish : List (Nat × Bool)) : Nat :=
  finish.countP fun p => !p.2

/-- The detector's `while is_processing` loop, run with explicit fuel: repeat
passes while a pass made progress.  `bankerLoop` below supplies fuel
`unfinishedCount finish + 1`, which `bankerLoop_fuel_irrelevant` proves
sufficient, so this computes the loop's fixpoint. -/
def bankerLoopFuel (needs allocations : List (Nat × List (Nat × Int))) :
    Nat → List (Nat × Bool) → List (Nat × Int) → List (Nat × Bool)
  | 0, finish, _ => finish
  | fuel + 1, finish, work =>
    if (bankerPass needs allocations finish work).2.2 then
      bankerLoopFuel needs allocations fuel
        (bankerPass needs allocations finish work).1
        (bankerPass needs allocations finish work).2.1
    else
      (bankerPass needs allocations finish work).1

/-- The final `finish` list computed by the detector's loop. -/
def bankerLoop (needs allocations : List (Nat × List (Nat × Int)))
    (finish : List (Nat × Bool)) (work : List (Nat × Int)) : List (Nat × Bool) :=
  bankerLoopFuel needs allocations (unfinishedCount finish + 1) finish work

/-- The detector's verdict in `sys_semaphore_down`: `true` when some thread is
left unfinished (`for (_, is_finished) in &finish { if !is_finished { return
-0xDEAD } }`). -/
def deadlockUnsafe (st : ProcState) (tid_now sem_id : Nat) : Bool :=
  (bankerLoop (needsOf st tid_now sem_id) (allocationsOf st tid_now sem_id)
    (finishInit st tid_now sem_id) (workOf st)).any fun p => !p.2

/-- `sys_semaphore_down(sem_id)` called by thread `tid_now` (`none` models the
unwrap panic on an invalid semaphore id): with deadlock detection enabled, run
the banker's check first and refuse with `-0xDEAD`, touching nothing;
otherwise perform `Semaphore::down` and return 0. -/
def sys_semaphore_down (st : ProcState) (tid_now sem_id : Nat) :
    Option (Int × ProcState) :=
  match getSem st sem_id with
  | none => none
  | some _ =>
    if st.is_dl_det_enable then
      if deadlockUnsafe st tid_now sem_id then
        some (-0xDEAD, st)
      else
        (Semaphore.down st sem_id tid_now).map fun st1 => (0, st1)
    else
      (Semaphore.down st sem_id tid_now).map fun st1 => (0, st1)

/-! ## sys_enable_deadlock_detect (os/src/syscall/sync.rs) -/

/-- `sys_enable_deadlock_detect(_enabled)`: the argument is ignored, the
process flag is set to `true` unconditionally, and the call returns 0.  The
state is the process's `is_dl_det_enable` flag. -/
def sys_enable_deadlock_detect (enabled : Nat) (is_dl_det_enable : Bool) :
    Int × Bool :=
  (0, true)

/-- The flag after a sequence of `sys_enable_deadlock_detect` calls. -/
def applyEnableCalls (args : List Nat) (flag : Bool) : Bool :=
  args.foldl (fun f a => (sys_enable_deadlock_detect a f).2) flag

/-! ## Auxiliary invariant and concrete sample values -/

/-- The inductive strengthening of the semaphore count/queue relation: the
queue length always equals `max 0 (-count)`. -/
def SemStrongInv (s : Sem) : Prop :=
  (s.wait_queue.length : Int) = max 0 (-s.count)

/-- Sample inode for evaluating `get_block_id`. -/
def inodeC3 : DiskInode :=
  { size := 0, direct := fun i => 1000 + i, indirect1 := 77, indirect2 := 88 }

/-- Sample device contents for evaluating `get_block_id`. -/
def diskC3 : Nat → Nat → Nat := fun b i => b * 1000 + i

/-- A ready task with stride 10. -/
def tC1a : TaskControlBlock := ⟨1, 16, 10, TaskStatus.Ready⟩

/-- A ready task with stride 5, enqueued after `tC1a`. -/
def tC1b : TaskControlBlock := ⟨2, 16, 5, TaskStatus.Ready⟩

/-- The ready queue `[tC1a, tC1b]` built through `TaskManager::add`. -/
def qC1 : List TaskControlBlock := TaskManager.add (TaskManager.add [] tC1a) tC1b

/-- A 28-byte directory-entry name (28 times `'a'`). -/
def nameC9 : List Nat := List.replicate 28 97

/-- A process state on which the banker's check refuses: one semaphore with
count 0 and one thread requesting it. -/
def stC2 : ProcState :=
  { is_dl_det_enable := true,
    semaphore_list := [some { sem_id := 0, count := 0, wait_queue := [] }],
    tasks := [some { res := some 0, allocation := [], need := [] }] }

/-- The state reached from `freshSemState 1 []` by two `down` operations. -/
def stC6w : ProcState :=
  { is_dl_det_enable := false,
    semaphore_list := [some { sem_id := 0, count := -1, wait_queue := [6] }],
    tasks := [] }

/-! # Theorems -/

/-- C3: `get_block_id(inner_id)` reads `direct[inner_id]` for
`inner_id < 28`; entry `inner_id − 28` of the `indirect1` block for
`28 ≤ inner_id < 156`; and otherwise, with `k = inner_id − 156`, entry
`k % 128` of the first-level block whose id is entry `k / 128` of the
`indirect2` block. -/
theorem get_block_id_spec (inode : DiskInode) (disk : Nat → Nat → Nat)
    (inner_id : Nat) :
    (inner_id < 28 → inode.get_block_id inner_id disk = inode.direct inner_id) ∧
    (28 ≤ inner_id → inner_id < 156 →
      inode.get_block_id inner_id disk = disk inode.indirect1 (inner_id - 28)) ∧
    (156 ≤ inner_id →
      inode.get_block_id inner_id disk =
        disk (disk inode.indirect2 ((inner_id - 156) / 128)) ((inner_id - 156) % 128)) := by
  have e1 : INODE_DIRECT_COUNT = 28 := rfl
  have e2 : INDIRECT1_BOUND = 156 := rfl
  have e3 : INODE_INDIRECT1_COUNT = 128 := rfl
  unfold DiskInode.get_block_id
  rw [e1, e2, e3]
  refine ⟨fun h => ?_, fun h1 h2 => ?_, fun h => ?_⟩
  · rw [if_pos h]
  · rw [if_neg (by omega), if_pos h2]
  · rw [if_neg (by omega), if_neg (by omega)]

/-- Witness for C3 at `inner_id = 3`, `30` and `200`. -/
theorem get_block_id_spec_witness :
    inodeC3.get_block_id 3 diskC3 = inodeC3.direct 3 ∧
    inodeC3.get_block_id 30 diskC3 = diskC3 inodeC3.indirect1 (30 - 28) ∧
    inodeC3.get_block_id 200 diskC3 =
      diskC3 (diskC3 inodeC3.indirect2 ((200 - 156) / 128)) ((200 - 156) % 128) :=
  ⟨(get_block_id_spec inodeC3 diskC3 3).1 (by decide),
   (get_block_id_spec inodeC3 diskC3 30).2.1 (by decide) (by decide),
   (get_block_id_spec inodeC3 diskC3 200).2.2 (by decide)⟩

/-- C8: `DiskInode` occupies exactly 128 bytes, four fit into a 512-byte
block, and `get_disk_inode_pos(id)` yields block
`inode_area_start_block + id / 4` at byte offset `(id % 4) × 128`. -/
theorem disk_inode_layout_spec :
    sizeOfDiskInode = 128 ∧
    BLOCK_SZ / sizeOfDiskInode = 4 ∧
    ∀ inode_area_start_block inode_id,
      get_disk_inode_pos inode_area_start_block inode_id =
        (inode_area_start_block + inode_id / 4, inode_id % 4 * 128) :=
  ⟨rfl, rfl, fun _ _ => rfl⟩

/-- C10: every call of `sys_enable_deadlock_detect`, whatever its argument,
returns 0 and sets the flag to `true`; after any non-empty sequence of calls
the flag is `true`, so no call can turn detection off. -/
theorem enable_deadlock_detect_spec :
    (∀ arg flag, sys_enable_deadlock_detect arg flag = (0, true)) ∧
    (∀ args flag, args ≠ [] → applyEnableCalls args flag = true) := by
  have htrue : ∀ l : List Nat, applyEnableCalls l true = true := by
    intro l
    induction l with
    | nil => rfl
    | cons a rest ih => exact ih
  refine ⟨fun arg flag => rfl, fun args flag h => ?_⟩
  cases args with
  | nil => exact absurd rfl h
  | cons a rest => exact htrue rest

/-- Witness for C10 with argument 0 on a disabled flag. -/
theorem enable_deadlock_detect_spec_witness :
    sys_enable_deadlock_detect 0 false = (0, true) ∧
    applyEnableCalls [0] false = true :=
  ⟨enable_deadlock_detect_spec.1 0 false,
   enable_deadlock_detect_spec.2 [0] false (by decide)⟩

/-- C9 counterexample: the directory entry built from a 28-byte name keeps
all 28 bytes — index 27 of the stored name is 97, not 0, so names are neither
truncated at 27 bytes nor NUL-terminated at index 27. -/
theorem direntry_c9_counterexample :
    (DirEntry.new nameC9 1).map (fun e => e.name.get? 27) = some (some 97) ∧
    (97 : Nat) ≠ 0 :=
  ⟨rfl, by decide⟩

/-- `get?` into a replicated list of zeros. -/
theorem get?_replicate_zero (n m : Nat) (h : m < n) :
    (List.replicate n (0 : Nat)).get? m = some 0 := by
  rw [List.get?_eq_getElem?]
  simp [List.getElem?_replicate, h]

/-- C9 amended: for a name of at most 27 bytes, the stored name field is the
name NUL-padded to 28 bytes, so its byte at index 27 (and every byte from
`name.length` on) is zero; names of 28 bytes are stored whole, and longer
names panic — there is no truncation. -/
theorem direntry_new_padded (name : List Nat) (inode_id : Nat)
    (h : name.length ≤ 27) :
    DirEntry.new name inode_id =
      some ⟨name ++ List.replicate (28 - name.length) 0, inode_id⟩ ∧
    (name ++ List.replicate (28 - name.length) 0).length = 28 ∧
    (name ++ List.replicate (28 - name.length) 0).get? 27 = some 0 ∧
    (∀ i, i < name.length →
      (name ++ List.replicate (28 - name.length) 0).get? i = name.get? i) ∧
    (∀ i, name.length ≤ i → i < 28 →
      (name ++ List.replicate (28 - name.length) 0).get? i = some 0) := by
  have hlen : name.length ≤ NAME_LENGTH_LIMIT + 1 := by
    simp only [NAME_LENGTH_LIMIT]; omega
  refine ⟨?_, ?_, ?_, ?_, ?_⟩
  · unfold DirEntry.new
    rw [if_pos hlen]
    rfl
  · simp only [List.length_append, List.length_replicate]
    omega
  · rw [List.get?_append_right (by omega)]
    exact get?_replicate_zero _ _ (by omega)
  · intro i hi
    exact List.get?_append hi
  · intro i h1 h2
    rw [List.get?_append_right h1]
    exact get?_replicate_zero _ _ (by omega)

/-- Witness for C9's amended statement at the 2-byte name `"hi"`. -/
theorem direntry_new_padded_witness :
    DirEntry.new [104, 105] 7 = some ⟨[104, 105] ++ List.replicate 26 0, 7⟩ ∧
    ([104, 105] ++ List.replicate 26 0 : List Nat).get? 27 = some 0 :=
  ⟨(direntry_new_padded [104, 105] 7 (by decide)).1,
   (direntry_new_padded [104, 105] 7 (by decide)).2.2.1⟩

/-- C5: `MutexBlocking::unlock` on a non-empty wait queue pops and wakes the
head while `locked` stays `true`; on an empty queue it clears `locked`;
`MutexBlocking::lock` on an unlocked mutex sets `locked` and does not block,
and on a locked mutex appends the caller to the FIFO queue and blocks it. -/
theorem mutex_blocking_spec (m : MutexBlockingInner) (tid t : Nat)
    (rest : List Nat) :
    (m.locked = true → m.wait_queue = t :: rest →
      MutexBlocking.unlock m = some (⟨true, rest⟩, some t)) ∧
    (m.locked = true → m.wait_queue = [] →
      MutexBlocking.unlock m = some (⟨false, []⟩, none)) ∧
    (m.locked = false →
      MutexBlocking.lock tid m = (⟨true, m.wait_queue⟩, false)) ∧
    (m.locked = true →
      MutexBlocking.lock tid m = (⟨true, m.wait_queue ++ [tid]⟩, true)) := by
  obtain ⟨l, q⟩ := m
  refine ⟨fun hl hq => ?_, fun hl hq => ?_, fun hl => ?_, fun hl => ?_⟩ <;>
    subst hl <;>
    simp [MutexBlocking.lock, MutexBlocking.unlock] <;>
    simp_all

/-- Witness for C5: hand-off with a waiter, release with an empty queue,
uncontended acquire, and contended enqueue. -/
theorem mutex_blocking_spec_witness :
    MutexBlocking.unlock ⟨true, [3, 4]⟩ = some (⟨true, [4]⟩, some 3) ∧
    MutexBlocking.unlock ⟨true, []⟩ = some (⟨false, []⟩, none) ∧
    MutexBlocking.lock 9 ⟨false, []⟩ = (⟨true, []⟩, false) ∧
    MutexBlocking.lock 9 ⟨true, [3, 4]⟩ = (⟨true, [3, 4, 9]⟩, true) :=
  ⟨(mutex_blocking_spec ⟨true, [3, 4]⟩ 9 3 [4]).1 rfl rfl,
   (mutex_blocking_spec ⟨true, []⟩ 9 0 []).2.1 rfl rfl,
   (mutex_blocking_spec ⟨false, []⟩ 9 0 []).2.2.1 rfl,
   (mutex_blocking_spec ⟨true, [3, 4]⟩ 9 0 []).2.2.2 rfl⟩

/-- C1 counterexample: with stride-10 `tC1a` enqueued before stride-5 `tC1b`,
`fetch` returns `tC1a` although `tC1b` has the strictly smaller stride, and
suspending a running task re-enqueues it with its stride unchanged instead of
incremented by `BIG_STRIDE / priority`: the ready set is not ordered by
stride and no stride update happens. -/
theorem stride_scheduler_counterexample :
    TaskManager.fetch qC1 = some (tC1a, [tC1b]) ∧
    tC1b.proc_stride < tC1a.proc_stride ∧
    suspend_current_and_run_next ⟨some tC1a, []⟩ =
      some ⟨none, [⟨1, 16, 10, TaskStatus.Ready⟩]⟩ ∧
    (10 : Nat) ≠ 10 + BIG_STRIDE_spec / 16 := by
  refine ⟨rfl, by decide, rfl, by decide⟩

/-- C1 amended: the ready set is a plain FIFO queue — `add` appends at the
tail, `fetch` removes and returns the head in insertion order, ignoring
stride — and `suspend_current_and_run_next` marks the current task Ready and
re-enqueues it at the tail with its stride and priority unchanged (no
`BIG_STRIDE / priority` increment exists in the scheduler). -/
theorem fifo_scheduler_spec (q : List TaskControlBlock)
    (task t : TaskControlBlock) (rest : List TaskControlBlock)
    (p : ProcessorState) :
    TaskManager.add q task = q ++ [task] ∧
    TaskManager.fetch ([] : List TaskControlBlock) = none ∧
    TaskManager.fetch (t :: rest) = some (t, rest) ∧
    (p.current = some task →
      suspend_current_and_run_next p =
        some ⟨none, p.ready_queue ++ [{ task with task_status := TaskStatus.Ready }]⟩) := by
  refine ⟨rfl, rfl, rfl, fun h => ?_⟩
  unfold suspend_current_and_run_next
  rw [h]
  rfl

/-- Witness for C1's amended statement on the concrete queue `qC1`. -/
theorem fifo_scheduler_spec_witness :
    TaskManager.add [tC1a] tC1b = [tC1a, tC1b] ∧
    suspend_current_and_run_next ⟨some tC1b, [tC1a]⟩ =
      some ⟨none, [tC1a, { tC1b with task_status := TaskStatus.Ready }]⟩ :=
  ⟨(fifo_scheduler_spec [tC1a] tC1b tC1a [] ⟨some tC1b, [tC1a]⟩).1,
   (fifo_scheduler_spec [tC1a] tC1b tC1a [] ⟨some tC1b, [tC1a]⟩).2.2.2 rfl⟩

/-- Each round of `read_at`'s loop copies exactly the positions from `start`
up to the end clamp, so the loop as a whole copies `start, …, endPos - 1`. -/
theorem read_at_loop_eq (n start endPos : Nat) (hn : endPos - start = n)
    (hlt : start < endPos) :
    read_at_loop start endPos = List.range' start (endPos - start) := by
  induction n using Nat.strong_induction_on generalizing start endPos with
  | _ n ih =>
    rw [read_at_loop]
    split_ifs with h
    · rfl
    · have hlt2 : (start / BLOCK_SZ + 1) * BLOCK_SZ < endPos := by
        rcases Nat.lt_or_ge ((start / BLOCK_SZ + 1) * BLOCK_SZ) endPos with h2 | h2
        · exact h2
        · exact absurd (Nat.min_eq_right h2) h
      have hm : min ((start / BLOCK_SZ + 1) * BLOCK_SZ) endPos =
          (start / BLOCK_SZ + 1) * BLOCK_SZ :=
        Nat.min_eq_left (Nat.le_of_lt hlt2)
      have hgt : start < (start / BLOCK_SZ + 1) * BLOCK_SZ := by
        simp only [BLOCK_SZ]
        omega
      rw [hm]
      rw [ih (endPos - (start / BLOCK_SZ + 1) * BLOCK_SZ) (by omega) _ _ rfl hlt2]
      have happ := List.range'_append start
        ((start / BLOCK_SZ + 1) * BLOCK_SZ - start)
        (endPos - (start / BLOCK_SZ + 1) * BLOCK_SZ) 1
      rw [Nat.one_mul,
        show start + ((start / BLOCK_SZ + 1) * BLOCK_SZ - start) =
          (start / BLOCK_SZ + 1) * BLOCK_SZ from by omega] at happ
      rw [happ]
      congr 1
      omega

/-- C4: `read_at(offset, buf)` returns exactly
`min(offset + buf.len(), size) − offset` and copies exactly the file
positions `offset, …` up to that clamp; in particular, `offset ≥ size` copies
nothing and returns 0. -/
theorem read_at_spec (offset bufLen size : Nat) :
    (DiskInode.read_at offset bufLen size).1 =
      min (offset + bufLen) size - offset ∧
    (DiskInode.read_at offset bufLen size).2 =
      List.range' offset (min (offset + bufLen) size - offset) ∧
    (size ≤ offset → (DiskInode.read_at offset bufLen size).1 = 0) := by
  unfold DiskInode.read_at
  split_ifs with h
  · refine ⟨by omega, by rw [show min (offset + bufLen) size - offset = 0 from by omega]; rfl,
      fun _ => rfl⟩
  · rw [read_at_loop_eq (min (offset + bufLen) size - offset) _ _ rfl (by omega)]
    exact ⟨List.length_range' _ _ _, rfl, fun hso => absurd (by omega : offset < size) (by omega)⟩

/-- Witness for C4 at `offset = 9` past `size = 5`. -/
theorem read_at_spec_witness :
    5 ≤ 9 ∧ (DiskInode.read_at 9 4 5).1 = 0 :=
  ⟨by decide, (read_at_spec 9 4 5).2.2 (by decide)⟩

/-- A bitmap block yields nothing exactly when all its words are all-ones. -/
theorem allocInBlock_none_iff (b : List Nat) :
    allocInBlock b = none ↔ ∀ w ∈ b, w = U64_MAX := by
  induction b with
  | nil => simp [allocInBlock]
  | cons w rest ih =>
    by_cases hw : w = U64_MAX
    · subst hw
      simp [allocInBlock, Option.map_eq_none', ih]
    · simp [allocInBlock, hw]

/-- What a successful in-block allocation returns: the first non-full word,
its trailing-ones count, and the block with that bit set. -/
theorem allocInBlock_some (b : List Nat) (wpos ipos : Nat) (b' : List Nat)
    (h : allocInBlock b = some (wpos, ipos, b')) :
    ∃ w, (∀ j, j < wpos → b.get? j = some U64_MAX) ∧
      b.get? wpos = some w ∧ w ≠ U64_MAX ∧
      ipos = trailing_ones w ∧
      b' = b.set wpos (w ||| 2 ^ trailing_ones w) := by
  induction b generalizing wpos ipos b' with
  | nil => simp [allocInBlock] at h
  | cons w rest ih =>
    by_cases hw : w = U64_MAX
    · subst hw
      rw [allocInBlock, if_neg (by simp)] at h
      rw [Option.map_eq_some'] at h
      obtain ⟨r, hr, heq⟩ := h
      obtain ⟨rw1, rw2, rw3⟩ := r
      simp only [Prod.mk.injEq] at heq
      obtain ⟨h1, h2, h3⟩ := heq
      subst h1
      subst h2
      subst h3
      obtain ⟨w', ha, hb, hc, hd, he⟩ := ih rw1 rw2 rw3 hr
      refine ⟨w', fun j hj => ?_, hb, hc, hd, by rw [he]; rfl⟩
      cases j with
      | zero => rfl
      | succ k => exact ha k (by omega)
    · rw [allocInBlock, if_pos (by simpa using hw)] at h
      simp only [Option.some.injEq, Prod.mk.injEq] at h
      obtain ⟨h1, h2, h3⟩ := h
      subst h1
      subst h2
      subst h3
      exact ⟨w, fun j hj => absurd hj (by omega), rfl, hw, rfl, rfl⟩

/-- The whole-bitmap scan yields nothing exactly when every word of every
block is all-ones. -/
theorem bitmap_alloc_none_iff (blocks : List (List Nat)) :
    Bitmap.alloc blocks = none ↔ ∀ b ∈ blocks, ∀ w ∈ b, w = U64_MAX := by
  induction blocks with
  | nil => simp [Bitmap.alloc]
  | cons b rest ih =>
    cases hb : allocInBlock b with
    | some r =>
      simp only [Bitmap.alloc, hb]
      constructor
      · intro hcontra
        exact absurd hcontra (by simp)
      · intro hall
        have hnone : allocInBlock b = none :=
          (allocInBlock_none_iff b).2 (fun w hw => hall b (by simp) w hw)
        rw [hb] at hnone
        exact absurd hnone (by simp)
    | none =>
      simp only [Bitmap.alloc, hb, Option.map_eq_none']
      rw [ih]
      constructor
      · intro hrest
        intro b' hb' w hw
        rcases List.mem_cons.1 hb' with h' | h'
        · subst h'
          exact (allocInBlock_none_iff b').1 hb w hw
        · exact hrest b' h' w hw
      · intro hall b' hb' w hw
        exact hall b' (List.mem_cons_of_mem _ hb') w hw

/-- What a successful bitmap allocation returns: skipping fully-allocated
blocks, the first block with a free bit, decomposed per `allocInBlock_some`,
at the index `block * BLOCK_BITS + word * 64 + bit`. -/
theorem bitmap_alloc_some (blocks : List (List Nat)) (pos : Nat)
    (blocks' : List (List Nat))
    (h : Bitmap.alloc blocks = some (pos, blocks')) :
    ∃ bi wi w b,
      (∀ j b₀, j < bi → blocks.get? j = some b₀ → ∀ u ∈ b₀, u = U64_MAX) ∧
      blocks.get? bi = some b ∧
      (∀ j, j < wi → b.get? j = some U64_MAX) ∧
      b.get? wi = some w ∧ w ≠ U64_MAX ∧
      pos = bi * BLOCK_BITS + wi * 64 + trailing_ones w ∧
      blocks' = blocks.set bi (b.set wi (w ||| 2 ^ trailing_ones w)) := by
  induction blocks generalizing pos blocks' with
  | nil => simp [Bitmap.alloc] at h
  | cons b rest ih =>
    cases hb : allocInBlock b with
    | some r =>
      obtain ⟨rw1, rw2, rw3⟩ := r
      simp only [Bitmap.alloc, hb, Option.some.injEq, Prod.mk.injEq] at h
      obtain ⟨h1, h2⟩ := h
      obtain ⟨w, ha, hgetw, hwne, hipos, hset⟩ := allocInBlock_some b rw1 rw2 rw3 hb
      refine ⟨0, rw1, w, b, ?_, rfl, ha, hgetw, hwne, ?_, ?_⟩
      · intro j b₀ hj
        exact absurd hj (by omega)
      · omega
      · rw [← h2, hset]
        rfl
    | none =>
      simp only [Bitmap.alloc, hb, Option.map_eq_some'] at h
      obtain ⟨r, hr, heq⟩ := h
      simp only [Prod.mk.injEq] at heq
      obtain ⟨h1, h2⟩ := heq
      obtain ⟨bi, wi, w, b₁, hpre, hget, hwords, hgetw, hwne, hpos, hset⟩ :=
        ih r.1 r.2 hr
      refine ⟨bi + 1, wi, w, b₁, ?_, hget, hwords, hgetw, hwne, ?_, ?_⟩
      · intro j b₀ hj hgb
        cases j with
        | zero =>
          simp only [List.get?] at hgb
          injection hgb with hgb
          subst hgb
          exact (allocInBlock_none_iff b).1 hb
        | succ k =>
          exact hpre k b₀ (by omega) hgb
      · simp only [BLOCK_BITS, BLOCK_SZ] at hpos h1 ⊢
        omega
      · rw [← h2, hset]
        rfl

/-- `trailing_ones_fuel fuel w` (for `w < 2 ^ fuel`) lands on a clear bit and
every lower bit is set. -/
theorem trailing_ones_fuel_spec (fuel : Nat) :
    ∀ w, w < 2 ^ fuel →
      Nat.testBit w (trailing_ones_fuel fuel w) = false ∧
      ∀ j, j < trailing_ones_fuel fuel w → Nat.testBit w j = true := by
  induction fuel with
  | zero =>
    intro w hw
    interval_cases w
    refine ⟨by decide, fun j hj => ?_⟩
    rw [show trailing_ones_fuel 0 0 = 0 from rfl] at hj
    omega
  | succ fuel ih =>
    intro w hw
    have hpow : 2 ^ (fuel + 1) = 2 * 2 ^ fuel := by ring
    by_cases h2 : w % 2 = 1
    · have hw2 : w / 2 < 2 ^ fuel := by omega
      obtain ⟨ha, hb⟩ := ih (w / 2) hw2
      rw [show trailing_ones_fuel (fuel + 1) w = trailing_ones_fuel fuel (w / 2) + 1
        from by rw [trailing_ones_fuel, if_pos h2]]
      constructor
      · rw [Nat.testBit_add_one]
        exact ha
      · intro j hj
        cases j with
        | zero =>
          simp [Nat.testBit_zero, h2]
        | succ k =>
          rw [Nat.testBit_add_one]
          exact hb k (by omega)
    · rw [show trailing_ones_fuel (fuel + 1) w = 0
        from by rw [trailing_ones_fuel, if_neg h2]]
      refine ⟨?_, fun j hj => absurd hj (by omega)⟩
      simp [Nat.testBit_zero]
      omega

/-- C7: bitmap allocation is first-fit over 64-bit words — all blocks before
the chosen one are full, all words before the chosen word are all-ones, the
chosen word's lowest clear bit (its trailing-ones count) is allocated and
set, and the returned index is `block × 4096 + word × 64 + bit`; `none` is
returned only when every bit is already set. -/
theorem bitmap_alloc_first_fit (blocks : List (List Nat)) :
    (Bitmap.alloc blocks = none ↔ ∀ b ∈ blocks, ∀ w ∈ b, w = U64_MAX) ∧
    (∀ pos blocks', Bitmap.alloc blocks = some (pos, blocks') →
      ∃ bi wi w b,
        (∀ j b₀, j < bi → blocks.get? j = some b₀ → ∀ u ∈ b₀, u = U64_MAX) ∧
        blocks.get? bi = some b ∧
        (∀ j, j < wi → b.get? j = some U64_MAX) ∧
        b.get? wi = some w ∧ w ≠ U64_MAX ∧
        pos = bi * 4096 + wi * 64 + trailing_ones w ∧
        (w < 2 ^ 64 →
          Nat.testBit w (trailing_ones w) = false ∧
          ∀ j, j < trailing_ones w → Nat.testBit w j = true) ∧
        Nat.testBit (w ||| 2 ^ trailing_ones w) (trailing_ones w) = true ∧
        blocks' = blocks.set bi (b.set wi (w ||| 2 ^ trailing_ones w))) := by
  refine ⟨bitmap_alloc_none_iff blocks, fun pos blocks' h => ?_⟩
  obtain ⟨bi, wi, w, b, h1, h2, h3, h4, h5, h6, h7⟩ :=
    bitmap_alloc_some blocks pos blocks' h
  refine ⟨bi, wi, w, b, h1, h2, h3, h4, h5, h6, fun hw => trailing_ones_fuel_spec 64 w hw, ?_, h7⟩
  simp [Nat.testBit_or, Nat.testBit_two_pow_self]

/-- Witness for C7: in the bitmap `[[u64::MAX, 3]]`, the first free bit lives
in word 1 at bit 2, giving index 66, with that bit set afterwards. -/
theorem bitmap_alloc_first_fit_witness :
    Bitmap.alloc [[U64_MAX, 3]] = some (66, [[U64_MAX, 7]]) ∧
    Bitmap.alloc [[U64_MAX], [U64_MAX]] = none ∧
    (∃ bi wi w b,
      (∀ j b₀, j < bi → ([[U64_MAX, 3]] : List (List Nat)).get? j = some b₀ →
        ∀ u ∈ b₀, u = U64_MAX) ∧
      ([[U64_MAX, 3]] : List (List Nat)).get? bi = some b ∧
      (∀ j, j < wi → b.get? j = some U64_MAX) ∧
      b.get? wi = some w ∧ w ≠ U64_MAX ∧
      66 = bi * 4096 + wi * 64 + trailing_ones w ∧
      (w < 2 ^ 64 →
        Nat.testBit w (trailing_ones w) = false ∧
        ∀ j, j < trailing_ones w → Nat.testBit w j = true) ∧
      Nat.testBit (w ||| 2 ^ trailing_ones w) (trailing_ones w) = true ∧
      [[U64_MAX, 7]] = ([[U64_MAX, 3]] : List (List Nat)).set bi
        (b.set wi (w ||| 2 ^ trailing_ones w))) :=
  ⟨rfl,
   (bitmap_alloc_first_fit [[U64_MAX], [U64_MAX]]).1.2 (by decide),
   (bitmap_alloc_first_fit [[U64_MAX, 3]]).2 66 [[U64_MAX, 7]] rfl⟩

/-- Setting a list slot that exists makes `get?` return the new value. -/
theorem get?_set_self {α : Type} (l : List α) (i : Nat) (a : α)
    (h : i < l.length) : (l.set i a).get? i = some a := by
  induction l generalizing i with
  | nil => simp at h
  | cons x xs ih =>
    cases i with
    | zero => rfl
    | succ k => exact ih k (by simpa using h)

/-- A semaphore slot that answers `getSem` lies inside the list. -/
theorem getSem_lt_length (st : ProcState) (i : Nat) (sem : Sem)
    (h : getSem st i = some sem) : i < st.semaphore_list.length := by
  unfold getSem at h
  cases hg : st.semaphore_list.get? i with
  | none =>
    rw [hg] at h
    simp at h
  | some o =>
    rw [List.get?_eq_getElem?] at hg
    exact (List.getElem?_eq_some.1 hg).1

/-- `Semaphore::down` keeps the queue length equal to `max 0 (-count)`. -/
theorem down_preserves_inv (st : ProcState) (semIdx tid : Nat) (st' : ProcState)
    (h : Semaphore.down st semIdx tid = some st')
    (hinv : ∀ sem, getSem st semIdx = some sem → SemStrongInv sem) :
    ∀ sem', getSem st' semIdx = some sem' → SemStrongInv sem' := by
  unfold Semaphore.down at h
  split at h
  · exact absurd h (by simp)
  · rename_i sem hsem
    have hlen := getSem_lt_length st semIdx sem hsem
    have hold := hinv sem hsem
    unfold SemStrongInv at hold
    split_ifs at h with hc
    · simp only [Option.some.injEq] at h
      subst h
      intro sem' hs'
      unfold getSem setSem at hs'
      simp only at hs'
      rw [get?_set_self _ _ _ hlen] at hs'
      simp only [Option.some_bind, id_eq, Option.some.injEq] at hs'
      subst hs'
      unfold SemStrongInv
      dsimp only
      simp only [List.length_append, List.length_cons, List.length_nil]
      push_cast
      omega
    · simp only [Option.some.injEq] at h
      subst h
      intro sem' hs'
      unfold getSem setSem at hs'
      simp only at hs'
      rw [get?_set_self _ _ _ hlen] at hs'
      simp only [Option.some_bind, id_eq, Option.some.injEq] at hs'
      subst hs'
      unfold SemStrongInv
      dsimp only
      omega

/-- `Semaphore::up` keeps the queue length equal to `max 0 (-count)`. -/
theorem up_preserves_inv (st : ProcState) (semIdx tid : Nat) (st' : ProcState)
    (h : Semaphore.up st semIdx tid = some st')
    (hinv : ∀ sem, getSem st semIdx = some sem → SemStrongInv sem) :
    ∀ sem', getSem st' semIdx = some sem' → SemStrongInv sem' := by
  unfold Semaphore.up at h
  split at h
  · exact absurd h (by simp)
  · rename_i sem hsem
    have hlen := getSem_lt_length st semIdx sem hsem
    have hold := hinv sem hsem
    unfold SemStrongInv at hold
    split_ifs at h with hc
    · split at h
      · rename_i hq
        simp only [Option.some.injEq] at h
        subst h
        intro sem' hs'
        unfold getSem setSem at hs'
        simp only at hs'
        rw [get?_set_self _ _ _ hlen] at hs'
        simp only [Option.some_bind, id_eq, Option.some.injEq] at hs'
        subst hs'
        unfold SemStrongInv
        dsimp only
        rw [hq] at hold
        simp only [List.length_nil] at hold ⊢
        omega
      · rename_i wtid rest hq
        simp only [Option.some.injEq] at h
        subst h
        intro sem' hs'
        unfold getSem setSem at hs'
        simp only at hs'
        rw [get?_set_self _ _ _ hlen] at hs'
        simp only [Option.some_bind, id_eq, Option.some.injEq] at hs'
        subst hs'
        unfold SemStrongInv
        dsimp only
        rw [hq] at hold
        simp only [List.length_cons] at hold
        push_cast at hold ⊢
        omega
    · simp only [Option.some.injEq] at h
      subst h
      intro sem' hs'
      unfold getSem setSem at hs'
      simp only at hs'
      rw [get?_set_self _ _ _ hlen] at hs'
      simp only [Option.some_bind, id_eq, Option.some.injEq] at hs'
      subst hs'
      unfold SemStrongInv
      dsimp only
      omega

/-- Any sequence of `down`/`up` operations preserves the strengthened queue
invariant on the semaphore it targets. -/
theorem applySemOps_inv (ops : List (Bool × Nat)) (st st' : ProcState)
    (semIdx : Nat) (h : applySemOps ops st semIdx = some st')
    (hinv : ∀ sem, getSem st semIdx = some sem → SemStrongInv sem) :
    ∀ sem', getSem st' semIdx = some sem' → SemStrongInv sem' := by
  induction ops generalizing st with
  | nil =>
    unfold applySemOps at h
    simp only [Option.some.injEq] at h
    subst h
    exact hinv
  | cons op rest ih =>
    unfold applySemOps at h
    split at h
    · exact absurd h (by simp)
    · rename_i st1 hstep
      split_ifs at hstep with hop
      · exact ih st1 h (down_preserves_inv st semIdx op.2 st1 hstep hinv)
      · exact ih st1 h (up_preserves_inv st semIdx op.2 st1 hstep hinv)

/-- C6: starting from a fresh semaphore with count `N ≥ 0` and an empty wait
queue, every state reachable through `Semaphore::down` and `Semaphore::up`
satisfies: a non-empty wait queue implies a negative count. -/
theorem semaphore_queue_invariant (n : Nat) (tasks : List (Option ThreadTCB))
    (ops : List (Bool × Nat)) (st' : ProcState)
    (h : applySemOps ops (freshSemState n tasks) 0 = some st')
    (sem' : Sem) (hs : getSem st' 0 = some sem') :
    sem'.wait_queue ≠ [] → sem'.count < 0 := by
  have hinv0 : ∀ sem, getSem (freshSemState n tasks) 0 = some sem →
      SemStrongInv sem := by
    intro sem hsem
    unfold getSem freshSemState at hsem
    simp only [List.get?, Option.some_bind, id_eq, Option.some.injEq] at hsem
    subst hsem
    unfold SemStrongInv
    simp only [List.length_nil]
    omega
  have hinv' := applySemOps_inv ops _ st' 0 h hinv0 sem' hs
  intro hq
  unfold SemStrongInv at hinv'
  have hqlen : 0 < sem'.wait_queue.length := List.length_pos.2 hq
  omega

/-- Witness for C6: from a fresh semaphore with count 1, two `down`
operations leave count `-1` with thread 6 queued; the invariant instance
yields `-1 < 0`. -/
theorem semaphore_queue_invariant_witness :
    applySemOps [(true, 5), (true, 6)] (freshSemState 1 []) 0 = some stC6w ∧
    getSem stC6w 0 = some ⟨0, -1, [6]⟩ ∧
    (⟨0, -1, [6]⟩ : Sem).count < 0 :=
  ⟨rfl, rfl,
   semaphore_queue_invariant 1 [] [(true, 5), (true, 6)] stC6w rfl ⟨0, -1, [6]⟩ rfl
     (by decide)⟩

/-- A detector pass never unmarks a thread: the unfinished count does not
grow. -/
theorem bankerPass_unfinished_le (needs allocations : List (Nat × List (Nat × Int)))
    (finish : List (Nat × Bool)) (work : List (Nat × Int)) :
    unfinishedCount (bankerPass needs allocations finish work).1 ≤
      unfinishedCount finish := by
  induction finish generalizing work with
  | nil => simp [bankerPass, unfinishedCount]
  | cons p rest ih =>
    obtain ⟨tid, fin⟩ := p
    rw [bankerPass]
    split_ifs with hfin hen
    · subst hfin
      have := ih work
      simp [unfinishedCount, List.countP_cons] at *
      omega
    · simp only [Bool.not_eq_true] at hfin
      subst hfin
      have := ih (returnAlloc ((allocations.find? fun q => q.1 == tid).map fun q => q.2) work)
      simp [unfinishedCount, List.countP_cons] at *
      omega
    · simp only [Bool.not_eq_true] at hfin
      subst hfin
      have := ih work
      simp [unfinishedCount, List.countP_cons] at *
      omega

/-- A detector pass that reports progress strictly decreases the unfinished
count. -/
theorem bankerPass_progress (needs allocations : List (Nat × List (Nat × Int)))
    (finish : List (Nat × Bool)) (work : List (Nat × Int))
    (h : (bankerPass needs allocations finish work).2.2 = true) :
    unfinishedCount (bankerPass needs allocations finish work).1 <
      unfinishedCount finish := by
  induction finish generalizing work with
  | nil => simp [bankerPass] at h
  | cons p rest ih =>
    obtain ⟨tid, fin⟩ := p
    rw [bankerPass] at h ⊢
    split_ifs at h ⊢ with hfin hen
    · subst hfin
      simp only at h
      have := ih work h
      simp [unfinishedCount, List.countP_cons] at *
      omega
    · simp only [Bool.not_eq_true] at hfin
      subst hfin
      have hle := bankerPass_unfinished_le needs allocations rest
        (returnAlloc ((allocations.find? fun q => q.1 == tid).map fun q => q.2) work)
      simp [unfinishedCount, List.countP_cons] at *
      omega
    · simp only [Bool.not_eq_true] at hfin
      subst hfin
      simp only at h
      have := ih work h
      simp [unfinishedCount, List.countP_cons] at *
      omega

/-- Any fuel beyond the unfinished count computes the same final `finish`
list: the fuel `unfinishedCount finish + 1` used by `bankerLoop` reaches the
`while is_processing` loop's fixpoint. -/
theorem bankerLoopFuel_congr (needs allocations : List (Nat × List (Nat × Int))) :
    ∀ n finish work f₁ f₂, unfinishedCount finish = n →
      unfinishedCount finish < f₁ → unfinishedCount finish < f₂ →
      bankerLoopFuel needs allocations f₁ finish work =
        bankerLoopFuel needs allocations f₂ finish work := by
  intro n
  induction n using Nat.strong_induction_on with
  | _ n ih =>
    intro finish work f₁ f₂ hn h1 h2
    cases f₁ with
    | zero => omega
    | succ a =>
      cases f₂ with
      | zero => omega
      | succ b =>
        rw [bankerLoopFuel, bankerLoopFuel]
        cases hp : (bankerPass needs allocations finish work).2.2 with
        | false => simp [hp]
        | true =>
          simp only [hp, if_pos]
          have hlt := bankerPass_progress needs allocations finish work hp
          exact ih (unfinishedCount (bankerPass needs allocations finish work).1)
            (by omega) _ _ a b rfl (by omega) (by omega)

/-- C2: with deadlock detection enabled, `sys_semaphore_down` first runs the
banker's safety check (the request joined to the caller's `need`); if some
thread stays unfinishable it returns `-0xDEAD` with the whole process state —
semaphore count, wait queue, and every thread's `allocation` and `need` —
untouched, and otherwise it performs the normal `Semaphore::down` and
returns 0. -/
theorem sys_semaphore_down_banker (st : ProcState) (tid_now sem_id : Nat)
    (sem : Sem) (hsem : getSem st sem_id = some sem)
    (hen : st.is_dl_det_enable = true) :
    (deadlockUnsafe st tid_now sem_id = true →
      sys_semaphore_down st tid_now sem_id = some (-0xDEAD, st)) ∧
    (deadlockUnsafe st tid_now sem_id = false →
      sys_semaphore_down st tid_now sem_id =
        (Semaphore.down st sem_id tid_now).map fun st1 => ((0 : Int), st1)) := by
  constructor
  · intro hunsafe
    unfold sys_semaphore_down
    rw [hsem]
    simp [hen, hunsafe]
  · intro hsafe
    unfold sys_semaphore_down
    rw [hsem]
    simp [hen, hsafe]

/-- Witness for C2: one semaphore with count 0 and a single thread requesting
it — the banker's check leaves the thread unfinishable, and the syscall
returns `-0xDEAD` with the state unchanged. -/
theorem sys_semaphore_down_banker_witness :
    getSem stC2 0 = some ⟨0, 0, []⟩ ∧
    deadlockUnsafe stC2 0 0 = true ∧
    sys_semaphore_down stC2 0 0 = some (-0xDEAD, stC2) :=
  ⟨rfl, rfl, (sys_semaphore_down_banker stC2 0 0 ⟨0, 0, []⟩ rfl rfl).1 rfl⟩

end RCore
